import Mathlib

/-!
# Verification of the PKT indexer core

A shallow embedding of the core of `pkt_indexer.py`: the Fido date
normalizer, the body analyzer, the binary packet decoder, and the SQLite
record store (insertion and schema migration), together with theorems
checking the specification's claims about them.

Conventions of the embedding:
* Byte strings and (latin-1 decoded) text are both `List Nat` of code
  points; latin-1 maps every byte value to the character with the same
  code point, so decoding is the identity and never fails.
* Fallible reads return `Option`/`Except`; a raised `ValueError` is the
  `none`/`.error` branch, a `try`/`except` is a `match` on it.
* The decoder's `while` loop is a fuel-indexed structural recursion; the
  fuel `data.length` is proved sufficient (`parseLoopF_stable`), so the
  fueled function agrees with the unbounded loop.
* The quote percentage is modeled in `ℚ`: the Python float computation is
  an exact product followed by one correctly rounded division, and the
  claims concern the mathematical value `100 * quoted / msg_lines`.
-/

/-- Text / byte strings: lists of code points (bytes are < 256). -/
abbrev Str := List Nat

/-- Python `str.isspace` / `re` whitespace for code points below 256:
TAB LF VT FF CR, FS GS RS US (28-31), space, NEL (133), NBSP (160). -/
def pyIsSpace (c : Nat) : Bool :=
  c = 9 || c = 10 || c = 11 || c = 12 || c = 13 || c = 28 || c = 29 ||
  c = 30 || c = 31 || c = 32 || c = 133 || c = 160

/-- Python `str.strip()`: drop leading and trailing whitespace. -/
def pyStrip (s : Str) : Str :=
  ((s.dropWhile pyIsSpace).reverse.dropWhile pyIsSpace).reverse

/-- Python `str.splitlines` boundaries for code points below 256:
LF VT FF CR FS GS RS NEL.  (US, 31, is whitespace but not a boundary.) -/
def isLineBreak (c : Nat) : Bool :=
  c = 10 || c = 11 || c = 12 || c = 13 || c = 28 || c = 29 || c = 30 || c = 133

/-- Worker for `splitlines`: `acc` is the current line, reversed. -/
def splitlinesGo : Str → Str → List Str
  | [], acc => if acc.isEmpty then [] else [acc.reverse]
  | 13 :: 10 :: r2, acc => acc.reverse :: splitlinesGo r2 []
  | c :: r, acc =>
    if isLineBreak c then acc.reverse :: splitlinesGo r []
    else splitlinesGo r (c :: acc)

/-- Python `str.splitlines()`: split at line boundaries (CRLF is one
boundary), no trailing empty line for a trailing terminator. -/
def splitlines (s : Str) : List Str := splitlinesGo s []

/-- Python `str.upper()` of a single latin-1 character, as the (possibly
two-character) uppercase expansion: ASCII and latin-1 letters map down by
32, micro sign to Greek capital Mu, sharp s to SS, y-diaeresis to U+0178. -/
def pyUpperChar (c : Nat) : List Nat :=
  if 97 ≤ c && c ≤ 122 then [c - 32]
  else if c = 181 then [924]
  else if c = 223 then [83, 83]
  else if c = 255 then [376]
  else if 224 ≤ c && c ≤ 254 && c ≠ 247 then [c - 32]
  else [c]

/-- Python `str.upper()` on a string. -/
def pyUpper (s : Str) : Str := (s.map pyUpperChar).flatten

/- ============================================================
   Date parsing helpers (`parse_fido_datetime`)
   ============================================================ -/

/-- A produced `datetime` value (only the fields strptime sets here). -/
structure PyDateTime where
  year : Nat
  month : Nat
  day : Nat
  hour : Nat
  minute : Nat
  second : Nat
deriving DecidableEq, Repr

def isDigit (c : Nat) : Bool := 48 ≤ c && c ≤ 57

def dval (c : Nat) : Nat := c - 48

/-- A two-alternatives numeric field of CPython `_strptime`'s regex: a
two-digit match validated by `v2`, else a one-digit match validated by
`v1`.  (When the two-digit branch is taken but the rest of the format
fails, the regex backtracks to the one-digit branch; the character after
it is then a digit, which no following format token accepts, so the
greedy choice is extensionally faithful.) -/
def parse2or1 (v2 v1 : Nat → Bool) (s : Str) : Option (Nat × Str) :=
  match s with
  | c0 :: c1 :: rest =>
    if isDigit c0 && isDigit c1 && v2 (10 * dval c0 + dval c1) then
      some (10 * dval c0 + dval c1, rest)
    else if isDigit c0 && v1 (dval c0) then some (dval c0, c1 :: rest)
    else none
  | [c0] => if isDigit c0 && v1 (dval c0) then some (dval c0, []) else none
  | [] => none

/-- `%d`: `3[01]|[12]\d|0[1-9]|[1-9]`. -/
def parseDay (s : Str) : Option (Nat × Str) :=
  parse2or1 (fun v => 1 ≤ v && v ≤ 31) (fun v => 1 ≤ v) s

/-- `%H`: `2[0-3]|[0-1]\d|\d`. -/
def parseHour (s : Str) : Option (Nat × Str) :=
  parse2or1 (fun v => v ≤ 23) (fun _ => true) s

/-- `%M`: `[0-5]\d|\d`. -/
def parseMinute (s : Str) : Option (Nat × Str) :=
  parse2or1 (fun v => v ≤ 59) (fun _ => true) s

/-- `%S`: `6[0-1]|[0-5]\d|\d` (leap seconds pass the regex; the
`datetime` constructor rejects them afterwards). -/
def parseSecond (s : Str) : Option (Nat × Str) :=
  parse2or1 (fun v => v ≤ 61) (fun _ => true) s

/-- `%y`: exactly two digits; 0-68 maps to 2000s, 69-99 to 1900s. -/
def parseYear2 (s : Str) : Option (Nat × Str) :=
  match s with
  | c0 :: c1 :: rest =>
    if isDigit c0 && isDigit c1 then
      some (if 10 * dval c0 + dval c1 ≤ 68 then 2000 + 10 * dval c0 + dval c1
            else 1900 + 10 * dval c0 + dval c1, rest)
    else none
  | _ => none

/-- `%Y`: exactly four digits. -/
def parseYear4 (s : Str) : Option (Nat × Str) :=
  match s with
  | c0 :: c1 :: c2 :: c3 :: rest =>
    if isDigit c0 && isDigit c1 && isDigit c2 && isDigit c3 then
      some (1000 * dval c0 + 100 * dval c1 + 10 * dval c2 + dval c3, rest)
    else none
  | _ => none

def lowerC (c : Nat) : Nat := if 65 ≤ c && c ≤ 90 then c + 32 else c

/-- `%b`: three-letter C-locale month abbreviation, case-insensitive. -/
def monthNum (a b c : Nat) : Option Nat :=
  let t := (lowerC a, lowerC b, lowerC c)
  if t = (106, 97, 110) then some 1
  else if t = (102, 101, 98) then some 2
  else if t = (109, 97, 114) then some 3
  else if t = (97, 112, 114) then some 4
  else if t = (109, 97, 121) then some 5
  else if t = (106, 117, 110) then some 6
  else if t = (106, 117, 108) then some 7
  else if t = (97, 117, 103) then some 8
  else if t = (115, 101, 112) then some 9
  else if t = (111, 99, 116) then some 10
  else if t = (110, 111, 118) then some 11
  else if t = (100, 101, 99) then some 12
  else none

def parseMonth : Str → Option (Nat × Str)
  | a :: b :: c :: rest => (monthNum a b c).map fun m => (m, rest)
  | _ => none

/-- A whitespace run in the format: CPython compiles it to `\s+`. -/
def parseSpaces (s : Str) : Option Str :=
  match s with
  | c :: _ => if pyIsSpace c then some (s.dropWhile pyIsSpace) else none
  | [] => none

def parseColon : Str → Option Str
  | 58 :: r => some r
  | _ => none

def isLeap (y : Nat) : Bool := y % 4 = 0 && (y % 100 ≠ 0 || y % 400 = 0)

def daysInMonth (y m : Nat) : Nat :=
  if m = 2 then (if isLeap y then 29 else 28)
  else if m = 4 || m = 6 || m = 9 || m = 11 then 30 else 31

/-- `datetime.strptime(s, fmt)` for the format shape
`%d \s+ %b \s+ (year) \s+ %H:%M:%S`, requiring a full-string match, then
the `datetime` constructor's range validation (`ValueError` is `none`). -/
def strptimeCore (fourDigitYear : Bool) (s : Str) : Option PyDateTime := do
  let (d, s) ← parseDay s
  let s ← parseSpaces s
  let (mo, s) ← parseMonth s
  let s ← parseSpaces s
  let (y, s) ← if fourDigitYear then parseYear4 s else parseYear2 s
  let s ← parseSpaces s
  let (h, s) ← parseHour s
  let s ← parseColon s
  let (mi, s) ← parseMinute s
  let s ← parseColon s
  let (sec, s) ← parseSecond s
  if s = [] && 1 ≤ y && d ≤ daysInMonth y mo && sec ≤ 59 then
    pure ⟨y, mo, d, h, mi, sec⟩
  else none

/-- One of the module's four `fmts` entries: `"%d %b %y  %H:%M:%S"`,
`"%d %b %y %H:%M:%S"`, `"%d %b %Y  %H:%M:%S"`, `"%d %b %Y %H:%M:%S"`. -/
structure FidoFmt where
  fourDigitYear : Bool
  doubleSpaceBeforeTime : Bool
deriving DecidableEq, Repr

def fidoFormats : List FidoFmt :=
  [⟨false, true⟩, ⟨false, false⟩, ⟨true, true⟩, ⟨true, false⟩]

/-- CPython `_strptime` compiles every whitespace run of the format to the
regex `\s+`, so the double-space and single-space layouts accept the same
inputs; only the year width distinguishes the four formats. -/
def strptime (f : FidoFmt) (s : Str) : Option PyDateTime :=
  strptimeCore f.fourDigitYear s

/-- The `for fmt in fmts: try ... except ValueError: pass` loop: first
format whose strptime succeeds. -/
def tryFormats : List FidoFmt → Str → Option PyDateTime
  | [], _ => none
  | f :: fs, s =>
    match strptime f s with
    | some dt => some dt
    | none => tryFormats fs s

def pad2 (n : Nat) : Str := [48 + n / 10, 48 + n % 10]

def pad4 (n : Nat) : Str :=
  [48 + n / 1000 % 10, 48 + n / 100 % 10, 48 + n / 10 % 10, 48 + n % 10]

/-- `dt.isoformat(sep=" ")` for a whole-second datetime:
`YYYY-MM-DD HH:MM:SS`. -/
def isoFormat (dt : PyDateTime) : Str :=
  pad4 dt.year ++ [45] ++ pad2 dt.month ++ [45] ++ pad2 dt.day ++ [32] ++
  pad2 dt.hour ++ [58] ++ pad2 dt.minute ++ [58] ++ pad2 dt.second

/-- `parse_fido_datetime`: strip, shortcut the empty string, try the four
formats in order; always return the input string unchanged as the second
component. -/
def parse_fido_datetime (s : Str) : Option Str × Str :=
  let raw := pyStrip s
  if raw = [] then (none, s)
  else
    match tryFormats fidoFormats raw with
    | some dt => (some (isoFormat dt), s)
    | none => (none, s)

/- ============================================================
   Echo & body analysis
   ============================================================ -/

/-- The tag literal `"AREA:"`. -/
def areaLit : Str := [65, 82, 69, 65, 58]

/-- Drop one leading 0x01 kludge byte, as `line = line[1:]` under
`line.startswith("\x01")`. -/
def stripOneCtrl : Str → Str
  | 1 :: r => r
  | l => l

/-- The scan loop of `extract_echo` over the candidate lines. -/
def echoScan : List Str → Option Str
  | [] => none
  | l :: ls =>
    if l = [] then echoScan ls
    else
      let l1 := stripOneCtrl l
      if (pyUpper l1).take 5 = areaLit then
        let area := pyStrip (l1.drop 5)
        if area = [] then echoScan ls else some area
      else echoScan ls

/-- `extract_echo`: scan the first 30 lines for an `AREA:` tag. -/
def extract_echo (body_text : Str) : Option Str :=
  echoScan ((splitlines body_text).take 30)

/-- `re.match(r"\s*>", l)`: after leading whitespace the first character
is `>` (62). -/
def isQuotedLine (l : Str) : Bool := (l.dropWhile pyIsSpace).head? = some 62

/-- `analyse_body`: count of non-kludge lines and percentage of quoted
ones among them (`none` when there are no non-kludge lines). -/
def analyse_body (body_text : Str) : Nat × Option ℚ :=
  let usable := (splitlines body_text).filter (fun l => decide (l.head? ≠ some 1))
  let total := usable.length
  if total = 0 then (0, none)
  else
    let quoted := (usable.filter isQuotedLine).length
    (total, some (((quoted * 100 : Nat) : ℚ) / (total : ℚ)))

/- ============================================================
   PKT parsing helpers
   ============================================================ -/

/-- Index of the first 0 byte of a list, if any. -/
def findNul : List Nat → Option Nat
  | [] => none
  | c :: r => if c = 0 then some 0 else (findNul r).map (· + 1)

/-- `data.find(b"\x00", off)` (absolute index; `none` for Python's -1). -/
def findFrom (data : List Nat) (off : Nat) : Option Nat :=
  (findNul (data.drop off)).map (· + off)

/-- `data[a:b]` for `a ≤ b`. -/
def pySlice (data : List Nat) (a b : Nat) : List Nat :=
  (data.drop a).take (b - a)

/-- `read_cstr`: NUL-terminated string at `off`, and the offset past the
NUL; `none` is the raised `ValueError` for a missing terminator.  (The
inline body read of `parse_pkt_file` — find, slice, `end + 1` — is the
same computation.) -/
def read_cstr (data : List Nat) (off : Nat) : Option (Str × Nat) :=
  match findFrom data off with
  | none => none
  | some e => some (pySlice data off e, e + 1)

def PKT_HDR_LEN : Nat := 58

/-- The two failure shapes of `parse_pkt_file`: the initial
`too small to be a PKT` check, and the in-loop truncation errors
(`truncated message header`, `Missing NUL terminator in PKT string`,
`message body missing terminator`). -/
inductive PktError where
  | tooSmall
  | truncated
deriving DecidableEq, Repr

/-- The text fields of one raw message as read from the buffer. -/
structure RawMsg where
  date_str : Str
  to_name : Str
  from_name : Str
  subject : Str
  body : Str
deriving DecidableEq, Repr

/-- Outcome of one iteration of the decode loop at cursor `off`. -/
inductive StepRes where
  | stop
  | fail
  | next (m : RawMsg) (off2 : Nat)
deriving DecidableEq, Repr

/-- The reads of one message after its (non-zero) marker at `off`: the
`off + 20 > len(data)` bound test for the ten fixed uint16 fields (the
marker's 2 bytes are already counted in, hence `off + 22`), the four
NUL-terminated text fields in order, and the NUL-terminated body.
`none` exactly when the fixed block extends past the buffer end or one
of the five NUL terminators is absent before the buffer end. -/
def readMsgAt (data : List Nat) (off : Nat) : Option (RawMsg × Nat) :=
  if data.length < off + 22 then none
  else
    match read_cstr data (off + 22) with
    | none => none
    | some (dateS, o1) =>
      match read_cstr data o1 with
      | none => none
      | some (toS, o2) =>
        match read_cstr data o2 with
        | none => none
        | some (fromS, o3) =>
          match read_cstr data o3 with
          | none => none
          | some (subjS, o4) =>
            match read_cstr data o4 with
            | none => none
            | some (bodyS, o5) => some (⟨dateS, toS, fromS, subjS, bodyS⟩, o5)

/-- One iteration of the decode loop: the 2-byte end-of-buffer test, the
little-endian marker read and its zero test, then the message reads. -/
def parseStep (data : List Nat) (off : Nat) : StepRes :=
  if data.length < off + 2 then .stop
  else if data.getD off 0 + 256 * data.getD (off + 1) 0 = 0 then .stop
  else
    match readMsgAt data off with
    | none => .fail
    | some (m, o5) => .next m o5

/-- One decoded message record as appended to `results` (the `pkt_file`
key is the path string passed alongside). -/
structure MsgRec where
  pkt_file : Str
  msg_index : Nat
  date_iso : Option Str
  date_raw : Str
  echo : Option Str
  size_bytes : Nat
  msg_lines : Nat
  pct_quoted : Option ℚ
  from_name : Str
  subject : Str
deriving DecidableEq, Repr

/-- Build the record dict for one decoded message. -/
def mkRec (pktFile : Str) (idx : Nat) (m : RawMsg) : MsgRec :=
  let ab := analyse_body m.body
  let fd := parse_fido_datetime m.date_str
  { pkt_file := pktFile
    msg_index := idx
    date_iso := fd.1
    date_raw := pyStrip fd.2
    echo := extract_echo m.body
    size_bytes := m.body.length
    msg_lines := ab.1
    pct_quoted := ab.2
    from_name := pyStrip m.from_name
    subject := pyStrip m.subject }

/-- The decode `while` loop, indexed by fuel.  The loop body strictly
advances the cursor, so fuel `data.length` never runs out
(`parseLoopF_stable` below); the 0-fuel fallback is unreachable from
`parse_pkt_file`. -/
def parseLoopF (pktFile : Str) (data : List Nat) :
    Nat → Nat → Nat → Except PktError (List MsgRec)
  | 0, off, _ =>
    match parseStep data off with
    | .stop => .ok []
    | .fail => .error .truncated
    | .next _ _ => .ok []
  | fuel + 1, off, idx =>
    match parseStep data off with
    | .stop => .ok []
    | .fail => .error .truncated
    | .next m off2 =>
      match parseLoopF pktFile data fuel off2 (idx + 1) with
      | .error e => .error e
      | .ok rest => .ok (mkRec pktFile idx m :: rest)

/-- `parse_pkt_file`: header length check, then the message loop from
offset 58 with `msg_index` starting at 0. -/
def parse_pkt_file (pktFile : Str) (data : List Nat) :
    Except PktError (List MsgRec) :=
  if data.length < PKT_HDR_LEN then .error .tooSmall
  else parseLoopF pktFile data data.length PKT_HDR_LEN 0

/- ============================================================
   DB schema & helpers
   ============================================================ -/

/-- Key comparison against the unique index `(pkt_file, msg_index)`. -/
def rowKeyEq (r : MsgRec) (f : Str) (i : Nat) : Bool :=
  decide (r.pkt_file = f ∧ r.msg_index = i)

/-- Whether a row with the given unique key exists. -/
def hasKey (db : List MsgRec) (f : Str) (i : Nat) : Bool :=
  db.any (fun r => rowKeyEq r f i)

/-- One `INSERT OR IGNORE` statement: appends the row unless its
`(pkt_file, msg_index)` key conflicts with the unique index, and yields
`cur.rowcount` (1 when inserted, 0 when ignored). -/
def insertOne (db : List MsgRec) (m : MsgRec) : List MsgRec × Nat :=
  if hasKey db m.pkt_file m.msg_index then (db, 0) else (db ++ [m], 1)

/-- `insert_messages`: insert-or-ignore each record in order, summing the
rowcounts.  (`conn.commit()` has no observable effect in this
single-connection model.) -/
def insert_messages (db : List MsgRec) : List MsgRec → List MsgRec × Nat
  | [] => (db, 0)
  | m :: ms =>
    let p := insertOne db m
    let q := insert_messages p.1 ms
    (q.1, p.2 + q.2)

/-- `"2"`, the current `schema_version` value. -/
def ver2 : Str := [50]

/-- The store state `init_db` manipulates: existence of the
`pkt_messages` table, presence of the two statistic columns, the rows,
existence of the `meta` table and its `schema_version` value (`none`
when the key row is absent). -/
structure Store where
  tableExists : Bool
  hasMsgLines : Bool
  hasPctQuoted : Bool
  rows : List MsgRec
  metaExists : Bool
  schemaVersion : Option Str
deriving DecidableEq, Repr

/-- `conn.executescript(SCHEMA_SQL)`: create `pkt_messages` (with both
statistic columns) and `meta` when absent, and insert-or-ignore
`('schema_version', '2')`.  A freshly created table has no rows. -/
def execSchemaScript (s : Store) : Store :=
  let s1 := if s.tableExists then s
    else { s with tableExists := true, hasMsgLines := true,
                  hasPctQuoted := true, rows := [] }
  let s2 := if s1.metaExists then s1
    else { s1 with metaExists := true, schemaVersion := none }
  if s2.schemaVersion = none then { s2 with schemaVersion := some ver2 } else s2

/-- `init_db`: run the schema script, `ALTER TABLE ... ADD COLUMN` each
missing statistic column (nullable, existing rows untouched), then
insert-or-ignore and `UPDATE` the `schema_version` row to `'2'`. -/
def init_db (s : Store) : Store :=
  let s1 := execSchemaScript s
  let s2 := if s1.hasMsgLines then s1 else { s1 with hasMsgLines := true }
  let s3 := if s2.hasPctQuoted then s2 else { s2 with hasPctQuoted := true }
  let s4 := if s3.schemaVersion = none then { s3 with schemaVersion := some ver2 }
    else s3
  if s4.schemaVersion = none then s4 else { s4 with schemaVersion := some ver2 }

/- ============================================================
   The per-file loop of main()
   ============================================================ -/

/-- One input file: its path and raw bytes. -/
structure FileJob where
  name : Str
  data : List Nat
deriving DecidableEq, Repr

/-- What main() reports for one file: the `[ERROR]` line, or the counts
of the `[OK]` line together with whether the delete gate fired. -/
inductive FileOutcome where
  | failed (e : PktError)
  | imported (nMsgs nInserted : Nat) (deleted : Bool)
deriving DecidableEq, Repr

/-- The body of main()'s per-file loop (non-test mode): parse, on error
report and continue; otherwise insert and apply the deletion gate
`args.delete and inserted == len(messages)`. -/
def processFile (del : Bool) (db : List MsgRec) (f : FileJob) :
    List MsgRec × FileOutcome :=
  match parse_pkt_file f.name f.data with
  | .error e => (db, .failed e)
  | .ok msgs =>
    let p := insert_messages db msgs
    (p.1, .imported msgs.length p.2 (del && decide (p.2 = msgs.length)))

/-- main()'s loop over the sorted file list. -/
def processAll (del : Bool) (db : List MsgRec) :
    List FileJob → List MsgRec × List FileOutcome
  | [] => (db, [])
  | f :: fs =>
    let p := processFile del db f
    let q := processAll del p.1 fs
    (q.1, p.2 :: q.2)

/- ============================================================
   Claim-side definitions
   ============================================================ -/

/-- The decode loop viewed only as "does a truncation error occur while
walking the message stream from cursor `off`". -/
def walkTrF (data : List Nat) : Nat → Nat → Bool
  | 0, off =>
    match parseStep data off with
    | .stop => false
    | .fail => true
    | .next _ _ => false
  | fuel + 1, off =>
    match parseStep data off with
    | .stop => false
    | .fail => true
    | .next _ off2 => walkTrF data fuel off2

/-- Whether walking the message stream of a whole buffer (header length
already checked) hits a truncation. -/
def walkTruncated (data : List Nat) : Bool :=
  walkTrF data data.length PKT_HDR_LEN

/-- The body lines whose first character is not the 0x01 control byte. -/
def nonCtrlLines (body : Str) : List Str :=
  (splitlines body).filter (fun l => decide (l.head? ≠ some 1))

/-- Count of non-control body lines (0 for an empty body). -/
def nonCtrlCount (body : Str) : Nat := (nonCtrlLines body).length

/-- Count of non-control lines whose first character after leading
whitespace is `>`. -/
def quotedCount (body : Str) : Nat :=
  ((nonCtrlLines body).filter isQuotedLine).length

/-- A candidate line matches the area tag: case-insensitive prefix match
of the literal `AREA:` after stripping at most one control byte. -/
def areaLineMatches (l : Str) : Bool :=
  decide ((pyUpper (stripOneCtrl l)).take 5 = areaLit)

/-- The trimmed remainder of a candidate line after the 5-character tag. -/
def areaRemainder (l : Str) : Str := pyStrip ((stripOneCtrl l).drop 5)

/-- The claim's reading of area extraction: the trimmed remainder of the
first matching line among the first 30. -/
def firstAreaMatch (body : Str) : Option Str :=
  (((splitlines body).take 30).find? areaLineMatches).map areaRemainder

/-- Area extraction as the code behaves: the trimmed remainder of the
first matching line among the first 30 whose remainder is non-empty. -/
def firstNonemptyAreaMatch (body : Str) : Option Str :=
  (((splitlines body).take 30).find?
      (fun l => areaLineMatches l && decide (areaRemainder l ≠ []))).map
    areaRemainder

/-- The spec's description of date normalization: try the four layouts in
order on the whitespace-trimmed input and ISO-render the first success;
no value when none match (including the empty string). -/
def normalizeSpec (s : Str) : Option Str :=
  (tryFormats fidoFormats (pyStrip s)).map isoFormat

/- ============================================================
   Concrete inputs for witnesses and counterexamples
   ============================================================ -/

/-- A packet: 58-byte header, marker 1, 20 zero bytes of fixed fields,
date field `" "` (one space), then four empty NUL-terminated fields. -/
def dataC7 : List Nat :=
  List.replicate 58 0 ++ [1, 0] ++ List.replicate 20 0 ++ [32, 0, 0, 0, 0, 0]

/-- The raw message read from `dataC7`. -/
def rawC7 : RawMsg := ⟨[32], [], [], [], []⟩

/-- The record decoded from `dataC7`: its `date_raw` is `[]`, not the
raw date field `[32]`. -/
def recC7 : MsgRec := ⟨[], 0, none, [], none, 0, 0, none, [], []⟩

/-- An empty file: shorter than the 58-byte header. -/
def fileC8 : FileJob := ⟨[], []⟩

/- ============================================================
   Offset bounds of the reads
   ============================================================ -/

theorem findNul_bound {l : List Nat} {i : Nat} (h : findNul l = some i) :
    i < l.length := by
  induction l generalizing i with
  | nil => simp [findNul] at h
  | cons c r ih =>
    by_cases hc : c = 0
    · simp [findNul, hc] at h
      simp only [List.length_cons]
      omega
    · simp [findNul, hc] at h
      obtain ⟨j, hj, rfl⟩ := h
      have := ih hj
      simp only [List.length_cons]
      omega

theorem findFrom_bound {data : List Nat} {off e : Nat}
    (h : findFrom data off = some e) : off ≤ e ∧ e < data.length := by
  unfold findFrom at h
  cases hf : findNul (data.drop off) with
  | none => rw [hf] at h; simp at h
  | some i =>
    rw [hf] at h
    simp only [Option.map_some', Option.some.injEq] at h
    have hi := findNul_bound hf
    rw [List.length_drop] at hi
    omega

theorem read_cstr_bound {data : List Nat} {off : Nat} {s : Str} {o2 : Nat}
    (h : read_cstr data off = some (s, o2)) : off < o2 ∧ o2 ≤ data.length := by
  unfold read_cstr at h
  cases hf : findFrom data off with
  | none => rw [hf] at h; exact Option.noConfusion h
  | some e =>
    rw [hf] at h
    simp only [Option.some.injEq, Prod.mk.injEq] at h
    have := findFrom_bound hf
    omega

/-- Inversion of a successful message read: the final offset advances by
at least 27 and stays within the buffer, and the date string is the
NUL-terminated field at `off + 22`. -/
theorem readMsgAt_inv {data : List Nat} {off : Nat} {m : RawMsg} {o5 : Nat}
    (h : readMsgAt data off = some (m, o5)) :
    (off + 27 ≤ o5 ∧ o5 ≤ data.length) ∧
      ∃ o, read_cstr data (off + 22) = some (m.date_str, o) := by
  unfold readMsgAt at h
  split at h
  · exact Option.noConfusion h
  cases h1 : read_cstr data (off + 22) with
  | none => simp only [h1] at h; exact Option.noConfusion h
  | some p1 =>
    obtain ⟨s1, o1⟩ := p1
    simp only [h1] at h
    cases h2 : read_cstr data o1 with
    | none => simp only [h2] at h; exact Option.noConfusion h
    | some p2 =>
      obtain ⟨s2, o2⟩ := p2
      simp only [h2] at h
      cases h3 : read_cstr data o2 with
      | none => simp only [h3] at h; exact Option.noConfusion h
      | some p3 =>
        obtain ⟨s3, o3⟩ := p3
        simp only [h3] at h
        cases h4 : read_cstr data o3 with
        | none => simp only [h4] at h; exact Option.noConfusion h
        | some p4 =>
          obtain ⟨s4, o4⟩ := p4
          simp only [h4] at h
          cases h5 : read_cstr data o4 with
          | none => simp only [h5] at h; exact Option.noConfusion h
          | some p5 =>
            obtain ⟨s5, o5x⟩ := p5
            simp only [h5, Option.some.injEq, Prod.mk.injEq] at h
            obtain ⟨hm, ho⟩ := h
            have b1 := read_cstr_bound h1
            have b2 := read_cstr_bound h2
            have b3 := read_cstr_bound h3
            have b4 := read_cstr_bound h4
            have b5 := read_cstr_bound h5
            refine ⟨by omega, o1, ?_⟩
            rw [← hm]

theorem parseStep_next_bound {data : List Nat} {off : Nat} {m : RawMsg}
    {o5 : Nat} (h : parseStep data off = .next m o5) :
    off + 27 ≤ o5 ∧ o5 ≤ data.length := by
  unfold parseStep at h
  split at h
  · exact StepRes.noConfusion h
  split at h
  · exact StepRes.noConfusion h
  cases hr : readMsgAt data off with
  | none =>
    simp only [hr] at h
    exact StepRes.noConfusion h
  | some p =>
    obtain ⟨m2, o⟩ := p
    simp only [hr, StepRes.next.injEq] at h
    obtain ⟨rfl, rfl⟩ := h
    exact (readMsgAt_inv hr).1

/- ============================================================
   Decode loop lemmas
   ============================================================ -/

/-- The loop never reports the header-length error. -/
theorem parseLoopF_ne_tooSmall (f : Str) (data : List Nat)
    (fuel off idx : Nat) :
    parseLoopF f data fuel off idx ≠ .error .tooSmall := by
  induction fuel generalizing off idx with
  | zero =>
    unfold parseLoopF
    cases parseStep data off <;> simp
  | succ n ih =>
    unfold parseLoopF
    cases hs : parseStep data off with
    | stop => simp
    | fail => simp
    | next m off2 =>
      cases hrec : parseLoopF f data n off2 (idx + 1) with
      | error e =>
        have hne := ih off2 (idx + 1)
        rw [hrec] at hne
        simp only [hrec]
        simpa using hne
      | ok rest => simp [hrec]

/-- The loop errors exactly when the walk predicate fires. -/
theorem parseLoopF_walk (f : Str) (data : List Nat) (fuel off idx : Nat) :
    parseLoopF f data fuel off idx = .error .truncated ↔
      walkTrF data fuel off = true := by
  induction fuel generalizing off idx with
  | zero =>
    unfold parseLoopF walkTrF
    cases parseStep data off <;> simp
  | succ n ih =>
    unfold parseLoopF walkTrF
    cases hs : parseStep data off with
    | stop => simp
    | fail => simp
    | next m off2 =>
      cases hrec : parseLoopF f data n off2 (idx + 1) with
      | error e =>
        cases e with
        | tooSmall =>
          exact absurd hrec (parseLoopF_ne_tooSmall f data n off2 (idx + 1))
        | truncated =>
          have hw := (ih off2 (idx + 1)).mp hrec
          simp [hrec, hw]
      | ok rest =>
        have hw : ¬ walkTrF data n off2 = true := by
          intro hwt
          rw [(ih off2 (idx + 1)).mpr hwt] at hrec
          exact Except.noConfusion hrec
        simp [hrec, hw]

/-- Fuel irrelevance: any two sufficient fuels give the same result, so
the fueled loop computes the unbounded `while` loop. -/
theorem parseLoopF_stable (f : Str) (data : List Nat)
    (fuel fuel2 off idx : Nat) (h : data.length ≤ off + 27 * fuel)
    (h2 : data.length ≤ off + 27 * fuel2) :
    parseLoopF f data fuel off idx = parseLoopF f data fuel2 off idx := by
  induction fuel generalizing fuel2 off idx with
  | zero =>
    have hs : parseStep data off = .stop := by
      unfold parseStep
      rw [if_pos]
      omega
    cases fuel2 <;> unfold parseLoopF <;> simp [hs]
  | succ n ih =>
    cases hs : parseStep data off with
    | stop => cases fuel2 <;> unfold parseLoopF <;> simp [hs]
    | fail => cases fuel2 <;> unfold parseLoopF <;> simp [hs]
    | next m off2 =>
      obtain ⟨hlow, hhigh⟩ := parseStep_next_bound hs
      cases fuel2 with
      | zero => omega
      | succ k =>
        unfold parseLoopF
        simp only [hs]
        rw [ih k off2 (idx + 1) (by omega) (by omega)]

/-- A successful loop result of `n` messages consumed at least `27 * n`
bytes of the buffer past the starting cursor. -/
theorem parseLoopF_ok_bound (f : Str) (data : List Nat)
    (fuel off idx : Nat) (msgs : List MsgRec)
    (h : parseLoopF f data fuel off idx = .ok msgs) :
    msgs = [] ∨ off + 27 * msgs.length ≤ data.length := by
  induction fuel generalizing off idx msgs with
  | zero =>
    unfold parseLoopF at h
    cases hs : parseStep data off <;> simp only [hs] at h
    · exact Or.inl (Except.ok.inj h).symm
    · exact Except.noConfusion h
    · exact Or.inl (Except.ok.inj h).symm
  | succ n ih =>
    unfold parseLoopF at h
    cases hs : parseStep data off with
    | stop =>
      simp only [hs] at h
      exact Or.inl (Except.ok.inj h).symm
    | fail =>
      simp only [hs] at h
      exact Except.noConfusion h
    | next m off2 =>
      simp only [hs] at h
      obtain ⟨hlow, hhigh⟩ := parseStep_next_bound hs
      cases hrec : parseLoopF f data n off2 (idx + 1) with
      | error e =>
        simp only [hrec] at h
        exact Except.noConfusion h
      | ok rest =>
        simp only [hrec, Except.ok.injEq] at h
        subst h
        rcases ih off2 (idx + 1) rest hrec with hrest | hrest
        · subst hrest
          right
          simp only [List.length_cons, List.length_nil]
          omega
        · right
          simp only [List.length_cons]
          omega

/- ============================================================
   Insertion lemmas
   ============================================================ -/

theorem hasKey_append (db e : List MsgRec) (f : Str) (i : Nat) :
    hasKey (db ++ e) f i = (hasKey db f i || hasKey e f i) :=
  List.any_append

theorem hasKey_mono {db : List MsgRec} (e : List MsgRec) {f : Str} {i : Nat}
    (h : hasKey db f i = true) : hasKey (db ++ e) f i = true := by
  rw [hasKey_append, h, Bool.true_or]

theorem insertOne_pos {db : List MsgRec} {m : MsgRec}
    (hk : hasKey db m.pkt_file m.msg_index = true) :
    insertOne db m = (db, 0) := by
  unfold insertOne
  rw [if_pos hk]

theorem insertOne_neg {db : List MsgRec} {m : MsgRec}
    (hk : ¬ hasKey db m.pkt_file m.msg_index = true) :
    insertOne db m = (db ++ [m], 1) := by
  unfold insertOne
  rw [if_neg hk]

theorem insert_messages_cons (db : List MsgRec) (m : MsgRec)
    (ms : List MsgRec) :
    insert_messages db (m :: ms) =
      ((insert_messages (insertOne db m).1 ms).1,
        (insertOne db m).2 + (insert_messages (insertOne db m).1 ms).2) :=
  rfl

/-- Batch insertion appends exactly the records whose key was absent,
counts them, and touches no existing row. -/
theorem insert_messages_spec (msgs db : List MsgRec) :
    ∃ newRows : List MsgRec,
      (insert_messages db msgs).1 = db ++ newRows ∧
      (insert_messages db msgs).2 = newRows.length ∧
      ∀ r ∈ newRows, r ∈ msgs ∧ hasKey db r.pkt_file r.msg_index = false := by
  induction msgs generalizing db with
  | nil => exact ⟨[], by simp [insert_messages]⟩
  | cons m ms ih =>
    by_cases hk : hasKey db m.pkt_file m.msg_index
    · obtain ⟨nr, h1, h2, h3⟩ := ih db
      refine ⟨nr, ?_, ?_, ?_⟩
      · rw [insert_messages_cons, insertOne_pos hk]
        exact h1
      · rw [insert_messages_cons, insertOne_pos hk]
        simpa using h2
      · exact fun r hr => ⟨List.mem_cons_of_mem _ (h3 r hr).1, (h3 r hr).2⟩
    · obtain ⟨nr, h1, h2, h3⟩ := ih (db ++ [m])
      refine ⟨m :: nr, ?_, ?_, ?_⟩
      · rw [insert_messages_cons, insertOne_neg hk]
        rw [show db ++ m :: nr = (db ++ [m]) ++ nr by simp]
        exact h1
      · rw [insert_messages_cons, insertOne_neg hk, List.length_cons]
        simp only [h2]
        omega
      · intro r hr
        rcases List.mem_cons.mp hr with h | hr2
        · subst h
          simp only [Bool.not_eq_true] at hk
          exact ⟨List.mem_cons_self _ _, hk⟩
        · refine ⟨List.mem_cons_of_mem _ (h3 r hr2).1, ?_⟩
          have hf := (h3 r hr2).2
          rw [hasKey_append] at hf
          exact (Bool.or_eq_false_iff.mp hf).1

/-- After a batch insertion every submitted record's key is present. -/
theorem insert_messages_keys (msgs : List MsgRec) {m : MsgRec}
    (hm : m ∈ msgs) (db : List MsgRec) :
    hasKey (insert_messages db msgs).1 m.pkt_file m.msg_index = true := by
  induction msgs generalizing db with
  | nil => cases hm
  | cons a ms ih =>
    rw [insert_messages_cons]
    rcases List.mem_cons.mp hm with h | hm2
    · subst h
      have hbase : hasKey (insertOne db m).1 m.pkt_file m.msg_index = true := by
        by_cases hk : hasKey db m.pkt_file m.msg_index
        · rw [insertOne_pos hk]
          exact hk
        · rw [insertOne_neg hk]
          show hasKey (db ++ [m]) m.pkt_file m.msg_index = true
          rw [hasKey_append]
          have hone : hasKey [m] m.pkt_file m.msg_index = true := by
            simp [hasKey, rowKeyEq]
          rw [hone, Bool.or_true]
      obtain ⟨nr, h1, _, _⟩ := insert_messages_spec ms (insertOne db m).1
      show hasKey (insert_messages (insertOne db m).1 ms).1 _ _ = true
      rw [h1]
      exact hasKey_mono nr hbase
    · exact ih hm2 (insertOne db a).1

/-- If every submitted key is already present, insertion is a no-op. -/
theorem insert_messages_all_present (msgs : List MsgRec)
    (db : List MsgRec)
    (h : ∀ m ∈ msgs, hasKey db m.pkt_file m.msg_index = true) :
    insert_messages db msgs = (db, 0) := by
  induction msgs generalizing db with
  | nil => rfl
  | cons m ms ih =>
    rw [insert_messages_cons, insertOne_pos (h m (List.mem_cons_self _ _))]
    rw [ih db (fun x hx => h x (List.mem_cons_of_mem _ hx))]
    simp

/- ============================================================
   Miscellaneous helper lemmas
   ============================================================ -/

/-- The normalizer returns its input verbatim as the raw component. -/
theorem parse_fido_raw (s : Str) : (parse_fido_datetime s).2 = s := by
  unfold parse_fido_datetime
  by_cases h : pyStrip s = []
  · simp [h]
  · simp only [h, if_neg, if_false]
    cases tryFormats fidoFormats (pyStrip s) <;> rfl

/-- `getD` past an appended prefix of known length. -/
theorem getD_append_right_len (l l2 : List Nat) (i : Nat) :
    (l ++ l2).getD (l.length + i) 0 = l2.getD i 0 := by
  induction l with
  | nil => simp
  | cons a t ih =>
    simp only [List.cons_append, List.length_cons]
    rw [show t.length + 1 + i = (t.length + i) + 1 by omega]
    simpa using ih

/-- One-step unfolding of the echo scan (lets expanded). -/
theorem echoScan_cons (l : Str) (ls : List Str) :
    echoScan (l :: ls) =
      (if l = [] then echoScan ls
       else if (pyUpper (stripOneCtrl l)).take 5 = areaLit then
         (if pyStrip ((stripOneCtrl l).drop 5) = [] then echoScan ls
          else some (pyStrip ((stripOneCtrl l).drop 5)))
       else echoScan ls) := rfl

/-- The echo scan is the first matching line with non-empty remainder. -/
theorem echoScan_eq_find (ls : List Str) :
    echoScan ls = (ls.find? (fun l =>
      areaLineMatches l && decide (areaRemainder l ≠ []))).map areaRemainder := by
  induction ls with
  | nil => rfl
  | cons l ls ih =>
    rw [echoScan_cons]
    by_cases he : l = []
    · subst he
      rw [if_pos rfl, ih, List.find?_cons_of_neg _ (by decide)]
    · rw [if_neg he]
      by_cases hm : (pyUpper (stripOneCtrl l)).take 5 = areaLit
      · rw [if_pos hm]
        by_cases ha : pyStrip ((stripOneCtrl l).drop 5) = []
        · rw [if_pos ha, ih, List.find?_cons_of_neg]
          simp [areaLineMatches, areaRemainder, hm, ha]
        · rw [if_neg ha, List.find?_cons_of_pos]
          · simp [areaRemainder]
          · simp [areaLineMatches, areaRemainder, hm, ha]
      · rw [if_neg hm, ih, List.find?_cons_of_neg]
        simp [areaLineMatches, hm]

/-- Any loop state whose one-step outcome is `stop` yields the empty
message tail, whatever the fuel. -/
theorem parseLoopF_stop (f : Str) (data : List Nat) (fuel off idx : Nat)
    (hs : parseStep data off = .stop) :
    parseLoopF f data fuel off idx = .ok [] := by
  cases fuel <;> unfold parseLoopF <;> simp [hs]

/-- One decode step fails exactly on a non-zero marker whose message
reads fail. -/
theorem parseStep_fail_iff (data : List Nat) (off : Nat) :
    parseStep data off = .fail ↔
      off + 2 ≤ data.length ∧
      data.getD off 0 + 256 * data.getD (off + 1) 0 ≠ 0 ∧
      readMsgAt data off = none := by
  unfold parseStep
  by_cases h1 : data.length < off + 2
  · rw [if_pos h1]
    constructor
    · intro h
      exact StepRes.noConfusion h
    · rintro ⟨h2, -, -⟩
      omega
  · rw [if_neg h1]
    by_cases h2 : data.getD off 0 + 256 * data.getD (off + 1) 0 = 0
    · rw [if_pos h2]
      constructor
      · intro h
        exact StepRes.noConfusion h
      · rintro ⟨-, hne, -⟩
        exact absurd h2 hne
    · rw [if_neg h2]
      cases hr : readMsgAt data off with
      | none => exact iff_of_true rfl ⟨by omega, h2, rfl⟩
      | some p =>
        obtain ⟨m, o⟩ := p
        constructor
        · intro h
          exact StepRes.noConfusion h
        · rintro ⟨-, -, hnone⟩
          exact Option.noConfusion hnone

/- ============================================================
   Claim theorems
   ============================================================ -/

/-- C1: insertion is insert-or-ignore on the `(pkt_file, msg_index)` key:
a batch appends exactly the records whose key is absent (never updating
an existing row), returns the count of rows actually inserted, and
resubmitting the same batch against the resulting store inserts 0 rows
and leaves the store unchanged. -/
theorem c1_insert_idempotent (db msgs : List MsgRec) :
    (∃ newRows : List MsgRec,
      (insert_messages db msgs).1 = db ++ newRows ∧
      (insert_messages db msgs).2 = newRows.length ∧
      ∀ r ∈ newRows, r ∈ msgs ∧ hasKey db r.pkt_file r.msg_index = false) ∧
    insert_messages (insert_messages db msgs).1 msgs =
      ((insert_messages db msgs).1, 0) := by
  refine ⟨insert_messages_spec msgs db, ?_⟩
  exact insert_messages_all_present msgs _
    (fun m hm => insert_messages_keys msgs hm db)

/-- C2: the decoder raises the `too small` error iff the buffer is
shorter than 58 bytes; for a long enough buffer it raises the
`truncated` error iff the walk over the message stream fails, and
otherwise returns a message list; one step fails exactly when, after a
non-zero marker, the 20-byte fixed block extends past the buffer end or
one of the five NUL terminators is absent (`readMsgAt` is `none`). -/
theorem c2_decoder_error_cases (f : Str) (data : List Nat) :
    (parse_pkt_file f data = .error .tooSmall ↔ data.length < 58) ∧
    (parse_pkt_file f data = .error .truncated ↔
      58 ≤ data.length ∧ walkTruncated data = true) ∧
    ((∃ msgs, parse_pkt_file f data = .ok msgs) ↔
      58 ≤ data.length ∧ walkTruncated data = false) ∧
    (∀ off : Nat, parseStep data off = .fail ↔
      off + 2 ≤ data.length ∧
      data.getD off 0 + 256 * data.getD (off + 1) 0 ≠ 0 ∧
      readMsgAt data off = none) := by
  unfold parse_pkt_file PKT_HDR_LEN
  by_cases hlen : data.length < 58
  · rw [if_pos hlen]
    refine ⟨by simp [hlen], ?_, ?_, fun off => parseStep_fail_iff data off⟩
    · constructor
      · intro h
        exact absurd (Except.error.inj h) (by simp)
      · rintro ⟨h1, -⟩
        omega
    · constructor
      · rintro ⟨msgs, h⟩
        exact Except.noConfusion h
      · rintro ⟨h1, -⟩
        omega
  · rw [if_neg hlen]
    have h58 : 58 ≤ data.length := Nat.not_lt.mp hlen
    refine ⟨iff_of_false (parseLoopF_ne_tooSmall f data data.length 58 0)
      hlen, ?_, ?_, fun off => parseStep_fail_iff data off⟩
    · rw [parseLoopF_walk f data data.length 58 0]
      unfold walkTruncated PKT_HDR_LEN
      simp [h58]
    · cases hres : parseLoopF f data data.length 58 0 with
      | error e =>
        cases e with
        | tooSmall =>
          exact absurd hres (parseLoopF_ne_tooSmall f data data.length 58 0)
        | truncated =>
          have hw := (parseLoopF_walk f data data.length 58 0).mp hres
          unfold walkTruncated PKT_HDR_LEN
          constructor
          · rintro ⟨msgs, h⟩
            exact Except.noConfusion h
          · rintro ⟨-, hfalse⟩
            rw [hw] at hfalse
            exact Bool.noConfusion hfalse
      | ok msgs =>
        have hw : walkTrF data data.length 58 = false := by
          have := (parseLoopF_walk f data data.length 58 0).mpr
          by_contra hcon
          rw [this (by simpa using hcon)] at hres
          exact Except.noConfusion hres
        unfold walkTruncated PKT_HDR_LEN
        exact iff_of_true ⟨msgs, rfl⟩ ⟨h58, hw⟩

/-- C3: body analysis returns the count of non-control lines, a quote
percentage absent exactly when that count is 0 and otherwise equal to
`100 * quoted / msg_lines`, a value always within `[0, 100]`. -/
theorem c3_body_statistics (body : Str) :
    (analyse_body body).1 = nonCtrlCount body ∧
    ((analyse_body body).2 = none ↔ nonCtrlCount body = 0) ∧
    (analyse_body body).2 = (if nonCtrlCount body = 0 then none
      else some ((100 * (quotedCount body : ℚ)) / (nonCtrlCount body : ℚ))) ∧
    0 ≤ ((analyse_body body).2).getD 0 ∧
    ((analyse_body body).2).getD 0 ≤ 100 := by
  have heq : analyse_body body =
      (nonCtrlCount body,
        if nonCtrlCount body = 0 then none
        else some (((quotedCount body * 100 : Nat) : ℚ) /
          (nonCtrlCount body : ℚ))) := by
    unfold analyse_body nonCtrlCount nonCtrlLines quotedCount
    by_cases h0 :
        ((splitlines body).filter (fun l => decide (l.head? ≠ some 1))).length = 0
    · rw [if_pos h0, if_pos h0, h0]
    · rw [if_neg h0, if_neg h0]
      rfl
  have hq : quotedCount body ≤ nonCtrlCount body := by
    unfold quotedCount nonCtrlCount
    exact List.length_filter_le _ _
  rw [heq]
  by_cases h0 : nonCtrlCount body = 0
  · simp [h0]
  · have hpos : (0 : ℚ) < (nonCtrlCount body : ℚ) := by
      exact_mod_cast Nat.pos_of_ne_zero h0
    have hcast : (quotedCount body : ℚ) ≤ (nonCtrlCount body : ℚ) := by
      exact_mod_cast hq
    refine ⟨rfl, by simp [h0], ?_, ?_, ?_⟩
    · rw [if_neg h0, if_neg h0]
      push_cast
      ring_nf
    · rw [if_neg h0]
      simp only [Option.getD_some]
      positivity
    · rw [if_neg h0]
      simp only [Option.getD_some]
      rw [div_le_iff₀ hpos]
      push_cast
      linarith

/-- C4 (amended): area extraction returns the trimmed remainder of the
first matching line, among the first 30, whose trimmed remainder is
non-empty; matching lines with empty remainder are skipped; absent when
no such line exists. -/
theorem c4_area_tag_extraction (body : Str) :
    extract_echo body = firstNonemptyAreaMatch body := by
  unfold extract_echo firstNonemptyAreaMatch
  exact echoScan_eq_find _

/-- C4 counterexample: on the body `"AREA:"`, the first (and only)
matching line has empty trimmed remainder, so the claim as stated
predicts `some ""` while the code returns no value. -/
theorem c4_counterexample :
    firstAreaMatch [65, 82, 69, 65, 58] = some [] ∧
    extract_echo [65, 82, 69, 65, 58] = none := ⟨rfl, rfl⟩

/-- C5: the loop ends successfully, with no message, both when fewer
than 2 bytes remain and when the 2-byte little-endian marker is zero;
in particular a 58-byte header followed by a zero marker decodes to the
empty message sequence. -/
theorem c5_terminator_modes :
    (∀ (f : Str) (data : List Nat) (fuel off idx : Nat),
      data.length < off + 2 → parseLoopF f data fuel off idx = .ok []) ∧
    (∀ (f : Str) (data : List Nat) (fuel off idx : Nat),
      off + 2 ≤ data.length →
      data.getD off 0 + 256 * data.getD (off + 1) 0 = 0 →
      parseLoopF f data fuel off idx = .ok []) ∧
    (∀ (f : Str) (hdr : List Nat), hdr.length = 58 →
      parse_pkt_file f (hdr ++ [0, 0]) = .ok []) := by
  refine ⟨?_, ?_, ?_⟩
  · intro f data fuel off idx h
    apply parseLoopF_stop
    unfold parseStep
    rw [if_pos h]
  · intro f data fuel off idx h hz
    apply parseLoopF_stop
    unfold parseStep
    rw [if_neg (by omega), if_pos hz]
  · intro f hdr hlen
    have h0 : (hdr ++ [0, 0]).getD 58 0 = 0 := by
      rw [show (58 : Nat) = hdr.length + 0 by omega, getD_append_right_len]
      rfl
    have h1 : (hdr ++ [0, 0]).getD 59 0 = 0 := by
      rw [show (59 : Nat) = hdr.length + 1 by omega, getD_append_right_len]
      rfl
    have hlen2 : (hdr ++ [0, 0]).length = 60 := by
      simp [hlen]
    unfold parse_pkt_file PKT_HDR_LEN
    rw [if_neg (by omega)]
    apply parseLoopF_stop
    unfold parseStep
    rw [if_neg (by omega), if_pos (by rw [h0, h1])]

/-- C6: the date normalizer is total: it returns the input string
verbatim as the raw component, together with the ISO rendering of the
first of the four layouts that parses the trimmed input, or no value
(never an error) when none match, the empty string included. -/
theorem c6_date_normalizer (s : Str) :
    parse_fido_datetime s = (normalizeSpec s, s) := by
  unfold parse_fido_datetime normalizeSpec
  by_cases h : pyStrip s = []
  · rw [h]
    rfl
  · rw [if_neg h]
    cases tryFormats fidoFormats (pyStrip s) <;> rfl

/-- C7 (amended): the `date_raw` field of a decoded record is the
whitespace-stripped raw date string read from the packet's date field
(the normalizer itself returns the raw string verbatim; the record
builder strips it). -/
theorem c7_date_raw_stripped (data : List Nat) (off : Nat) (m : RawMsg)
    (off2 : Nat) (h : parseStep data off = .next m off2) (f : Str)
    (idx : Nat) :
    (∃ o, read_cstr data (off + 22) = some (m.date_str, o)) ∧
    (mkRec f idx m).date_raw = pyStrip m.date_str := by
  constructor
  · unfold parseStep at h
    split at h
    · exact StepRes.noConfusion h
    split at h
    · exact StepRes.noConfusion h
    cases hr : readMsgAt data off with
    | none =>
      simp only [hr] at h
      exact StepRes.noConfusion h
    | some p =>
      obtain ⟨m2, o5⟩ := p
      simp only [hr, StepRes.next.injEq] at h
      obtain ⟨rfl, rfl⟩ := h
      exact (readMsgAt_inv hr).2
  · show pyStrip (parse_fido_datetime m.date_str).2 = pyStrip m.date_str
    rw [parse_fido_raw]

/-- C7 witness: `c7_date_raw_stripped` at the concrete packet `dataC7`,
whose date field is the one-byte string `" "`. -/
theorem c7_date_raw_stripped_witness :
    (∃ o, read_cstr dataC7 (58 + 22) = some (rawC7.date_str, o)) ∧
    (mkRec [] 0 rawC7).date_raw = pyStrip rawC7.date_str :=
  c7_date_raw_stripped dataC7 58 rawC7 86 (by rfl) [] 0

/-- C7 counterexample: in `dataC7` the raw date field read from the
packet is `" "` (code 32), but the decoded record's `date_raw` is the
empty string, so `date_raw` is not character-for-character the raw
field. -/
theorem c7_counterexample :
    parse_pkt_file [] dataC7 = .ok [recC7] ∧
    read_cstr dataC7 80 = some ([32], 82) ∧
    recC7.date_raw ≠ [32] := ⟨rfl, rfl, by decide⟩

/-- C8: a decode error isolates at file granularity: the store is
unchanged, the file's outcome is exactly one reported error (never
an import outcome, so the deletion gate cannot fire), and the remaining
files are processed as if the failing file were absent. -/
theorem c8_decode_failure_isolated (del : Bool) (db : List MsgRec)
    (f : FileJob) (fs : List FileJob) (e : PktError)
    (h : parse_pkt_file f.name f.data = .error e) :
    processFile del db f = (db, .failed e) ∧
    (∀ n i d, (processFile del db f).2 ≠ .imported n i d) ∧
    processAll del db (f :: fs) =
      ((processAll del db fs).1, .failed e :: (processAll del db fs).2) := by
  have hp : processFile del db f = (db, .failed e) := by
    unfold processFile
    rw [h]
  refine ⟨hp, ?_, ?_⟩
  · intro n i d
    rw [hp]
    simp
  · show ((processAll del (processFile del db f).1 fs).1,
        (processFile del db f).2 ::
          (processAll del (processFile del db f).1 fs).2) = _
    rw [hp]

/-- C8 witness: `c8_decode_failure_isolated` on the empty file, which
fails with the `too small` error. -/
theorem c8_witness :
    processFile false [] fileC8 = ([], .failed .tooSmall) ∧
    (∀ n i d, (processFile false [] fileC8).2 ≠ .imported n i d) ∧
    processAll false [] [fileC8] =
      ((processAll false [] []).1,
        .failed .tooSmall :: (processAll false [] []).2) :=
  c8_decode_failure_isolated false [] fileC8 [] .tooSmall rfl

/-- C9: store opening is an idempotent migration: on an old store
lacking the two statistic columns it adds them, leaves the rows alone
and sets the version marker to `'2'`; on a store already at the current
schema it changes nothing; running it twice equals running it once. -/
theorem c9_init_db_migration (s : Store) :
    (s.tableExists = true → s.hasMsgLines = false → s.hasPctQuoted = false →
      init_db s = { s with hasMsgLines := true, hasPctQuoted := true,
                           metaExists := true, schemaVersion := some ver2 }) ∧
    (s.tableExists = true → s.hasMsgLines = true → s.hasPctQuoted = true →
      s.metaExists = true → s.schemaVersion = some ver2 → init_db s = s) ∧
    init_db (init_db s) = init_db s := by
  obtain ⟨te, ml, pq, rows, me, sv⟩ := s
  refine ⟨?_, ?_, ?_⟩
  · rintro rfl rfl rfl
    cases me <;> cases sv <;> simp [init_db, execSchemaScript, ver2]
  · rintro rfl rfl rfl rfl rfl
    simp [init_db, execSchemaScript]
  · cases te <;> cases ml <;> cases pq <;> cases me <;> cases sv <;>
      simp [init_db, execSchemaScript]

/-- C10: the decode loop terminates on every finite buffer: a continuing
step strictly advances the cursor by at least 27 bytes and stays inside
the buffer; hence any fuel of at least `data.length` computes the same,
stable result, and a successful parse yields at most
`(data.length - 58) / 27` messages, in particular at most `data.length`
loop iterations. -/
theorem c10_decode_terminates :
    (∀ (data : List Nat) (off : Nat) (m : RawMsg) (off2 : Nat),
      parseStep data off = .next m off2 →
        off + 27 ≤ off2 ∧ off2 ≤ data.length) ∧
    (∀ (f : Str) (data : List Nat) (fuel fuel2 off idx : Nat),
      data.length ≤ off + 27 * fuel → data.length ≤ off + 27 * fuel2 →
      parseLoopF f data fuel off idx = parseLoopF f data fuel2 off idx) ∧
    (∀ (f : Str) (data : List Nat) (msgs : List MsgRec),
      parse_pkt_file f data = .ok msgs →
      58 + 27 * msgs.length ≤ data.length ∧ msgs.length ≤ data.length) := by
  refine ⟨fun data off m off2 h => parseStep_next_bound h,
    fun f data fuel fuel2 off idx h h2 =>
      parseLoopF_stable f data fuel fuel2 off idx h h2, ?_⟩
  intro f data msgs h
  unfold parse_pkt_file PKT_HDR_LEN at h
  by_cases hlen : data.length < 58
  · rw [if_pos hlen] at h
    exact Except.noConfusion h
  · rw [if_neg hlen] at h
    rcases parseLoopF_ok_bound f data data.length 58 0 msgs h with h1 | h1
    · subst h1
      simp only [List.length_nil]
      omega
    · constructor <;> omega
